import Mathlib

/-!
Verification of the preview server's real-time coordination layer
(live-reload broadcast, SSE signaling rendezvous, startup/port resolution).

The embedding mirrors the TypeScript source:

* The SSE rendezvous keeps a mutable array `connections`; each connection
  holds the uuid of its listen route and a response handle.  Sending is
  `res.sseSend`, which on a write failure splices the connection out of the
  array at the index reported by `indexOf` and clears the keep-alive
  interval.  We model a connection as a record with a numeric identity
  `cid` (standing for JavaScript reference identity), its `uuid`, and a
  `live` flag saying whether a write on its transport succeeds or throws.
* The rendezvous state `RState` carries the connection array, the set of
  connection identities whose keep-alive interval is still scheduled, and a
  log `sent` of the packets successfully written, tagged by recipient.
* `Array.prototype.forEach` is embedded faithfully: the length is captured
  once, the index runs from 0 below that initial length, and at each step
  the element is looked up in the *current* array (splices performed by the
  callback shift later elements down, so an element can be skipped).
* The live-reload broadcast walks the WebSocket client set and, for each
  client whose readyState is OPEN, writes the string "update" followed by
  the JSON text of the object with a type field "update".
* Startup is modelled as the event trace of `startServer`: the awaited
  initial scan, the single preview-ready emission, and the `listen` call,
  in program order; port resolution follows the truthiness test
  `if (!resolvedPort)` of the source.

Opaque JSON payload values (initiator, data, uuid fields of a signal) are
modelled as strings; the server never inspects them.
-/

/-- A packet written on a signaling (SSE) connection.  The opaque JSON
values relayed by the server are modelled as strings. -/
inductive Msg where
  | ping
  | accept
  | announce (uuid : String)
  | signal (initiator : String) (data : String) (uuid : String)
deriving DecidableEq, Repr

/-- One SSE signaling connection: `cid` models JavaScript object identity,
`uuid` is the uuid the client registered under on its listen route, and
`live` says whether a write on its response stream succeeds (a dead
transport makes the write throw, which is the path the source catches). -/
structure Conn where
  cid : Nat
  uuid : String
  live : Bool
deriving DecidableEq, Repr

/-- The rendezvous server state: the `connections` array, the log of
packets successfully written (recipient identity paired with the packet,
in write order), and the identities whose keep-alive interval is still
scheduled (`setInterval` done, `clearInterval` not yet). -/
structure RState where
  conns : List Conn
  sent : List (Nat × Msg)
  intervalOn : List Nat
deriving DecidableEq, Repr

/-- The packets written to the connection with identity `cid`, in order. -/
def msgsTo (cid : Nat) (log : List (Nat × Msg)) : List Msg :=
  (log.filter (fun e => e.1 == cid)).map (fun e => e.2)

/-- JavaScript `Array.prototype.indexOf`: index of the first occurrence,
or -1 when absent. -/
def connIndexOf : List Conn → Conn → Int
  | [], _ => -1
  | x :: t, c =>
    if x = c then 0
    else
      let r := connIndexOf t c
      if r < 0 then -1 else r + 1

/-- JavaScript `Array.prototype.splice(start, 1)`: removes one element at
`start`, where a negative `start` counts from the end (so -1 removes the
last element of a nonempty array and removes nothing from an empty one). -/
def jsSpliceRemoveOne (l : List α) (start : Int) : List α :=
  let actual : Nat :=
    if start < 0 then ((l.length : Int) + start).toNat
    else (min start (l.length : Int)).toNat
  l.take actual ++ l.drop (actual + 1)

/-- `connections.splice(connections.indexOf(connection), 1)` of the source:
the eviction performed inside the catch of `res.sseSend`. -/
def evictConn (l : List Conn) (c : Conn) : List Conn :=
  jsSpliceRemoveOne l (connIndexOf l c)

/-- `res.sseSend(data)`: try to write the packet; on success it is appended
to the log, on failure (dead transport) the connection is spliced out of
the array at its `indexOf` position and its keep-alive interval cleared. -/
def sseSend (c : Conn) (m : Msg) (s : RState) : RState :=
  if c.live then
    { s with sent := s.sent ++ [(c.cid, m)] }
  else
    { s with conns := evictConn s.conns c, intervalOn := s.intervalOn.erase c.cid }

/-- The keep-alive period passed to `setInterval` (milliseconds). -/
def pingPeriodMs : Nat := 5000

/-- One firing of a connection's keep-alive interval: it fires only while
the interval has not been cleared, and then performs `res.sseSend` of a
ping packet. -/
def pingTick (c : Conn) (s : RState) : RState :=
  if c.cid ∈ s.intervalOn then sseSend c Msg.ping s else s

/-- GET /signaling/:uuid/listen: the sse middleware creates the connection,
schedules the keep-alive interval, pushes the connection onto the array,
and then the route handler sends the accept packet. -/
def listen (uuid : String) (cid : Nat) (live : Bool) (s : RState) : RState :=
  let c : Conn := { cid := cid, uuid := uuid, live := live }
  let s1 := { s with intervalOn := s.intervalOn ++ [cid] }
  let s2 := { s1 with conns := s1.conns ++ [c] }
  sseSend c Msg.accept s2

/-- JavaScript `Array.prototype.forEach` over the connections array reached
through `addr`: the length is captured once before the loop, the index runs
from 0 below it, and each step reads the element at the index in the
*current* array (absent when a callback has shrunk the array past it). -/
def jsForEachGo {σ : Type} (addr : σ → List Conn) (body : Conn → σ → σ) :
    Nat → Nat → σ → σ
  | 0, _, s => s
  | fuel + 1, k, s =>
    match (addr s).get? k with
    | some c => jsForEachGo addr body fuel (k + 1) (body c s)
    | none => jsForEachGo addr body fuel (k + 1) s

/-- `arr.forEach(body)` with `arr = addr s`. -/
def jsForEach {σ : Type} (addr : σ → List Conn) (body : Conn → σ → σ) (s : σ) : σ :=
  jsForEachGo addr body (addr s).length 0 s

/-- Body of the announce broadcast: skip the announcer's own uuid,
otherwise `sseSend` the announce packet. -/
def announceBody (uuid : String) (c : Conn) (s : RState) : RState :=
  if c.uuid != uuid then sseSend c (Msg.announce uuid) s else s

/-- POST /signaling/announce: broadcast the announce packet to every
connection whose uuid differs from the announcer's, then reply 200. -/
def announce (uuid : String) (s : RState) : RState × Nat :=
  (jsForEach RState.conns (announceBody uuid) s, 200)

/-- Body of the signal fan-out: on a uuid match, `sseSend` the packet and
set the result flag (the source sets `result = true` after the send, and
`sseSend` swallows write failures, so the flag is set either way). -/
def signalBody (pkt : Msg) (target : String) (c : Conn) (sb : RState × Bool) :
    RState × Bool :=
  if c.uuid == target then (sseSend c pkt sb.1, true) else sb

/-- POST /signaling/:uuid/signal: fan the signal packet out to every
connection whose uuid equals the target, reply 200 when the result flag was
set and 404 otherwise. -/
def signal (target initiator dat payloadUuid : String) (s : RState) : RState × Nat :=
  let pkt : Msg := Msg.signal initiator dat payloadUuid
  let sb := jsForEach (fun sb : RState × Bool => sb.1.conns) (signalBody pkt target) (s, false)
  (sb.1, if sb.2 then 200 else 404)

/-- A WebSocket client as seen by the reload broadcast: identity plus the
transport's readyState. -/
structure WsClient where
  cid : Nat
  readyState : Nat
deriving DecidableEq, Repr

/-- `WebSocket.OPEN` of the ws library. -/
def WS_OPEN : Nat := 1

/-- The first string `client.send('update')` writes. -/
def wsUpdateText : String := "update"

/-- The second string written: the JSON serialization of the object with a
type field "update". -/
def updateJson : String := "\x7b\"type\":\"update\"\x7d"

/-- The watcher's onProcessingComplete callback: walk the client set and,
for each client whose readyState is OPEN, send the two update messages.
The callback does not modify the client set, so it is returned unchanged;
the second component is the log of messages written, tagged by recipient. -/
def onProcessingComplete (clients : List WsClient) :
    List WsClient × List (Nat × String) :=
  (clients,
    clients.foldl
      (fun log c =>
        if c.readyState = WS_OPEN then
          log ++ [(c.cid, wsUpdateText), (c.cid, updateJson)]
        else log)
      [])

/-- The messages written to the reload client with identity `cid`. -/
def wsMsgsTo (cid : Nat) (log : List (Nat × String)) : List String :=
  (log.filter (fun e => e.1 == cid)).map (fun e => e.2)

/-- Port resolution of `startServer`: keep a truthy caller-supplied port;
otherwise (the JavaScript-falsy port 0) take the free-port finder's result,
falling back to 2044 when the finder's promise rejects. -/
def resolvePort (port : Nat) (finder : Option Nat) : Nat :=
  if port ≠ 0 then port
  else
    match finder with
    | some p => p
    | none => 2044

/-- Externally visible startup events of `startServer`, in program order. -/
inductive StartEvent where
  | scanComplete
  | scanFailed
  | emitReady (port : Nat)
  | listenStart (port : Nat)
deriving DecidableEq, Repr

/-- The event trace of `startServer`: resolve the port, await the initial
scan (a rejection propagates and nothing further runs), then set up routes,
emit preview-ready with the resolved port, and finally call listen. -/
def startServerTrace (port : Nat) (finder : Option Nat) (scanOk : Bool) :
    List StartEvent :=
  let rp := resolvePort port finder
  if scanOk then
    [StartEvent.scanComplete, StartEvent.emitReady rp, StartEvent.listenStart rp]
  else
    [StartEvent.scanFailed]

/-! ### Basic facts about indexOf, splice and eviction -/

theorem connIndexOf_of_not_mem {l : List Conn} {c : Conn} (h : c ∉ l) :
    connIndexOf l c = -1 := by
  induction l with
  | nil => rfl
  | cons x t ih =>
    have hx : ¬(x = c) := by
      rintro rfl
      exact h (List.mem_cons_self _ _)
    have ht : c ∉ t := fun hm => h (List.mem_cons_of_mem _ hm)
    simp [connIndexOf, hx, ih ht]

theorem connIndexOf_mem_bounds {l : List Conn} {c : Conn} (h : c ∈ l) :
    0 ≤ connIndexOf l c ∧ connIndexOf l c < l.length := by
  induction l with
  | nil => cases h
  | cons x t ih =>
    by_cases hx : x = c
    · simp [connIndexOf, hx]
    · have ht : c ∈ t := by
        rcases List.mem_cons.mp h with h1 | h2
        · exact absurd h1.symm hx
        · exact h2
      obtain ⟨h1, h2⟩ := ih ht
      have hr : ¬(connIndexOf t c < 0) := by omega
      simp only [connIndexOf, hx, if_false, if_neg hr, List.length_cons]
      push_cast
      omega

theorem jsSplice_neg_one (l : List α) : jsSpliceRemoveOne l (-1) = l.dropLast := by
  have ha : (((l.length : Int)) + (-1)).toNat = l.length - 1 := by omega
  have hd : l.drop (l.length - 1 + 1) = [] := List.drop_eq_nil_of_le (by omega)
  simp [jsSpliceRemoveOne, ha, hd, List.dropLast_eq_take]

theorem evictConn_of_not_mem {l : List Conn} {c : Conn} (h : c ∉ l) :
    evictConn l c = l.dropLast := by
  rw [evictConn, connIndexOf_of_not_mem h, jsSplice_neg_one]

theorem evictConn_eq_erase {l : List Conn} {c : Conn} (h : c ∈ l) :
    evictConn l c = l.erase c := by
  induction l with
  | nil => cases h
  | cons x t ih =>
    by_cases hx : x = c
    · subst hx
      have h0 : connIndexOf (x :: t) x = 0 := by
        simp [connIndexOf]
      rw [evictConn, h0]
      have hc0 : ¬((0 : Int) < 0) := by omega
      simp only [jsSpliceRemoveOne, if_neg hc0]
      have ha : ((0 : Int) ⊓ (((x :: t).length : Nat) : Int)).toNat = 0 := by
        omega
      rw [ha]
      simp [List.erase_cons_head]
    · have ht : c ∈ t := by
        rcases List.mem_cons.mp h with h1 | h2
        · exact absurd h1.symm hx
        · exact h2
      obtain ⟨h1, h2⟩ := connIndexOf_mem_bounds ht
      obtain ⟨i, hi⟩ : ∃ i : Nat, connIndexOf t c = (i : Int) :=
        ⟨(connIndexOf t c).toNat, by omega⟩
      have hilen : i < t.length := by
        rw [hi] at h2
        exact_mod_cast h2
      have hstep : connIndexOf (x :: t) c = ((i : Int)) + 1 := by
        have hr : ¬(connIndexOf t c < 0) := by omega
        simp [connIndexOf, hx, hr, hi]
      have hs1 : jsSpliceRemoveOne (x :: t) (((i : Int)) + 1) =
          x :: jsSpliceRemoveOne t ((i : Int)) := by
        have hc1 : ¬(((i : Int)) + 1 < 0) := by omega
        have hc2 : ¬((i : Int) < 0) := by omega
        simp only [jsSpliceRemoveOne, if_neg hc1, if_neg hc2, List.length_cons]
        have ha1 : ((((i : Int)) + 1) ⊓ (((t.length + 1 : Nat)) : Int)).toNat = i + 1 := by
          push_cast
          omega
        have ha2 : (((i : Int)) ⊓ ((t.length : Int))).toNat = i := by
          omega
        rw [ha1, ha2]
        simp [List.take_succ_cons, List.drop_succ_cons]
      have herase : (x :: t).erase c = x :: t.erase c := by
        have hxc : (x == c) = false := by
          simp [hx]
        simp [List.erase_cons, hxc]
      rw [evictConn, hstep, hs1, herase, ← hi, ← evictConn, ih ht]

theorem jsSplice_sublist (l : List α) (i : Int) :
    List.Sublist (jsSpliceRemoveOne l i) l := by
  simp only [jsSpliceRemoveOne]
  set a : Nat :=
    if i < 0 then ((l.length : Int) + i).toNat else (min i (l.length : Int)).toNat with ha
  have hdrop : List.Sublist (l.drop (a + 1)) (l.drop a) := by
    have heq : l.drop (a + 1) = (l.drop a).drop 1 := by
      rw [List.drop_drop]
    rw [heq, List.drop_one]
    exact List.tail_sublist _
  have h1 : List.Sublist (l.take a ++ l.drop (a + 1)) (l.take a ++ l.drop a) :=
    List.Sublist.append_left hdrop _
  rw [List.take_append_drop] at h1
  exact h1

theorem evictConn_sublist (l : List Conn) (c : Conn) : List.Sublist (evictConn l c) l :=
  jsSplice_sublist l (connIndexOf l c)

/-! ### Facts about sseSend -/

theorem sseSend_live {c : Conn} (h : c.live = true) (m : Msg) (s : RState) :
    sseSend c m s = { s with sent := s.sent ++ [(c.cid, m)] } := by
  simp [sseSend, h]

theorem sseSend_dead {c : Conn} (h : c.live = false) (m : Msg) (s : RState) :
    sseSend c m s =
      { s with conns := evictConn s.conns c, intervalOn := s.intervalOn.erase c.cid } := by
  simp [sseSend, h]

theorem sseSend_conns_sublist (c : Conn) (m : Msg) (s : RState) :
    List.Sublist (sseSend c m s).conns s.conns := by
  cases hc : c.live
  · rw [sseSend_dead hc]
    exact evictConn_sublist _ _
  · rw [sseSend_live hc]

/-! ### The forEach invariant principle -/

theorem jsForEachGo_invariant {σ : Type} (addr : σ → List Conn) (body : Conn → σ → σ)
    (P : Nat → σ → Prop)
    (hsome : ∀ k c s, (addr s).get? k = some c → P k s → P (k + 1) (body c s))
    (hnone : ∀ k s, (addr s).get? k = none → P k s → P (k + 1) s) :
    ∀ fuel k s, P k s → P (k + fuel) (jsForEachGo addr body fuel k s) := by
  intro fuel
  induction fuel with
  | zero =>
    intro k s h
    simpa [jsForEachGo] using h
  | succ n ih =>
    intro k s h
    have harr : k + (n + 1) = (k + 1) + n := by omega
    rw [harr]
    cases hg : (addr s).get? k with
    | some c =>
      simp only [jsForEachGo, hg]
      exact ih (k + 1) (body c s) (hsome k c s hg h)
    | none =>
      simp only [jsForEachGo, hg]
      exact ih (k + 1) s (hnone k s hg h)

theorem announceBody_sends {u : String} {c : Conn} (hb : (c.uuid != u) = true)
    (s : RState) : announceBody u c s = sseSend c (Msg.announce u) s := by
  simp [announceBody, hb]

theorem announceBody_skips {u : String} {c : Conn} (hb : (c.uuid != u) = false)
    (s : RState) : announceBody u c s = s := by
  simp [announceBody, hb]

theorem announce_all_live (u : String) (s : RState)
    (hlive : s.conns.all (fun c => c.live) = true) :
    (announce u s).1.sent =
      s.sent ++ (s.conns.filter (fun c => c.uuid != u)).map (fun c => (c.cid, Msg.announce u)) ∧
    (announce u s).1.conns = s.conns := by
  have key := jsForEachGo_invariant RState.conns (announceBody u)
    (fun k st =>
      st.conns = s.conns ∧ st.intervalOn = s.intervalOn ∧
      st.sent = s.sent ++
        ((s.conns.take k).filter (fun c => c.uuid != u)).map (fun c => (c.cid, Msg.announce u)))
    (by
      intro k c st hg h
      obtain ⟨hc, hio, hs⟩ := h
      have hg' : s.conns.get? k = some c := by
        rw [← hc]
        exact hg
      have hmem : c ∈ s.conns := List.get?_mem hg'
      have hcl : c.live = true := by
        have := List.all_eq_true.mp hlive c hmem
        simpa using this
      have htake : s.conns.take (k + 1) = s.conns.take k ++ [c] := by
        rw [List.take_succ]
        rw [show s.conns[k]? = some c from by
          rw [← List.get?_eq_getElem?]
          exact hg']
        rfl
      cases hb : (c.uuid != u) with
      | false =>
        rw [announceBody_skips hb]
        refine ⟨hc, hio, ?_⟩
        rw [hs, htake]
        simp [List.filter_append, hb]
      | true =>
        rw [announceBody_sends hb, sseSend_live hcl]
        refine ⟨hc, hio, ?_⟩
        simp only [hs, htake, List.filter_append, List.map_append, List.append_assoc]
        simp [List.filter_cons, hb]
    )
    (by
      intro k st hg h
      obtain ⟨hc, hio, hs⟩ := h
      have hg' : s.conns.get? k = none := by
        rw [← hc]
        exact hg
      have hlen : s.conns.length ≤ k := List.get?_eq_none.mp hg'
      refine ⟨hc, hio, ?_⟩
      rw [hs, List.take_of_length_le hlen, List.take_of_length_le (by omega)]
    )
    s.conns.length 0 s
    ⟨rfl, rfl, by simp⟩
  obtain ⟨hc, _, hs⟩ := key
  constructor
  · rw [show (announce u s).1 = jsForEachGo RState.conns (announceBody u) s.conns.length 0 s from rfl]
    rw [hs]
    simp
  · exact hc

theorem announce_entries (u : String) (s : RState) (e : Nat × Msg)
    (he : e ∈ (announce u s).1.sent) :
    e ∈ s.sent ∨
      (e.2 = Msg.announce u ∧ s.conns.any (fun c => c.cid == e.1 && c.uuid != u) = true) := by
  have key := jsForEachGo_invariant RState.conns (announceBody u)
    (fun _ st =>
      List.Sublist st.conns s.conns ∧
      ∀ e' ∈ st.sent, e' ∈ s.sent ∨
        (e'.2 = Msg.announce u ∧ s.conns.any (fun c => c.cid == e'.1 && c.uuid != u) = true))
    (by
      intro k c st hg h
      obtain ⟨hsub, hent⟩ := h
      have hmem : c ∈ st.conns := List.get?_mem hg
      have hmemS : c ∈ s.conns := hsub.subset hmem
      cases hb : (c.uuid != u) with
      | false =>
        rw [announceBody_skips hb]
        exact ⟨hsub, hent⟩
      | true =>
        rw [announceBody_sends hb]
        cases hcl : c.live with
        | true =>
          rw [sseSend_live hcl]
          refine ⟨hsub, ?_⟩
          intro e' he'
          rcases List.mem_append.mp he' with hold | hnew
          · exact hent e' hold
          · have : e' = (c.cid, Msg.announce u) := by
              simpa using hnew
            subst this
            refine Or.inr ⟨rfl, ?_⟩
            simp only [List.any_eq_true]
            exact ⟨c, hmemS, by simp [hb]⟩
        | false =>
          rw [sseSend_dead hcl]
          exact ⟨(evictConn_sublist st.conns c).trans hsub, hent⟩
    )
    (by
      intro k st _ h
      exact h
    )
    s.conns.length 0 s
    ⟨List.Sublist.refl _, fun e' he' => Or.inl he'⟩
  exact key.2 e he

theorem signalBody_match {t : String} {c : Conn} (pkt : Msg) (hb : (c.uuid == t) = true)
    (sb : RState × Bool) : signalBody pkt t c sb = (sseSend c pkt sb.1, true) := by
  simp [signalBody, hb]

theorem signalBody_skip {t : String} {c : Conn} (pkt : Msg) (hb : (c.uuid == t) = false)
    (sb : RState × Bool) : signalBody pkt t c sb = sb := by
  simp [signalBody, hb]

theorem signal_all_live (t i d u : String) (s : RState)
    (hlive : s.conns.all (fun c => c.live) = true) :
    (signal t i d u s).1.sent =
      s.sent ++ (s.conns.filter (fun c => c.uuid == t)).map (fun c => (c.cid, Msg.signal i d u)) ∧
    (signal t i d u s).1.conns = s.conns := by
  have key := jsForEachGo_invariant (fun sb : RState × Bool => sb.1.conns)
    (signalBody (Msg.signal i d u) t)
    (fun k sb =>
      sb.1.conns = s.conns ∧ sb.1.intervalOn = s.intervalOn ∧
      sb.1.sent = s.sent ++
        ((s.conns.take k).filter (fun c => c.uuid == t)).map (fun c => (c.cid, Msg.signal i d u)))
    (by
      intro k c sb hg h
      obtain ⟨hc, hio, hs⟩ := h
      have hg' : s.conns.get? k = some c := by
        rw [← hc]
        exact hg
      have hmem : c ∈ s.conns := List.get?_mem hg'
      have hcl : c.live = true := by
        have := List.all_eq_true.mp hlive c hmem
        simpa using this
      have htake : s.conns.take (k + 1) = s.conns.take k ++ [c] := by
        rw [List.take_succ]
        rw [show s.conns[k]? = some c from by
          rw [← List.get?_eq_getElem?]
          exact hg']
        rfl
      cases hb : (c.uuid == t) with
      | false =>
        rw [signalBody_skip _ hb]
        refine ⟨hc, hio, ?_⟩
        rw [hs, htake]
        simp [List.filter_append, hb]
      | true =>
        rw [signalBody_match _ hb, sseSend_live hcl]
        refine ⟨hc, hio, ?_⟩
        simp only [hs, htake, List.filter_append, List.map_append, List.append_assoc]
        simp [List.filter_cons, hb]
    )
    (by
      intro k sb hg h
      obtain ⟨hc, hio, hs⟩ := h
      have hg' : s.conns.get? k = none := by
        rw [← hc]
        exact hg
      have hlen : s.conns.length ≤ k := List.get?_eq_none.mp hg'
      refine ⟨hc, hio, ?_⟩
      rw [hs, List.take_of_length_le hlen, List.take_of_length_le (by omega)]
    )
    s.conns.length 0 (s, false)
    ⟨rfl, rfl, by simp⟩
  obtain ⟨hc, _, hs⟩ := key
  constructor
  · rw [show (signal t i d u s).1 =
        (jsForEachGo (fun sb : RState × Bool => sb.1.conns)
          (signalBody (Msg.signal i d u) t) s.conns.length 0 (s, false)).1 from rfl]
    rw [hs]
    simp
  · exact hc

theorem signal_status (t i d u : String) (s : RState) :
    (signal t i d u s).2 = if s.conns.any (fun c => c.uuid == t) then 200 else 404 := by
  have hP1 := jsForEachGo_invariant (fun sb : RState × Bool => sb.1.conns)
    (signalBody (Msg.signal i d u) t)
    (fun _ sb =>
      List.Sublist sb.1.conns s.conns ∧
      (sb.2 = true → s.conns.any (fun c => c.uuid == t) = true))
    (by
      intro k c sb hg h
      obtain ⟨hsub, hflag⟩ := h
      have hmem : c ∈ sb.1.conns := List.get?_mem hg
      have hmemS : c ∈ s.conns := hsub.subset hmem
      cases hb : (c.uuid == t) with
      | true =>
        rw [signalBody_match _ hb]
        refine ⟨(sseSend_conns_sublist _ _ _).trans hsub, fun _ => ?_⟩
        simp only [List.any_eq_true]
        exact ⟨c, hmemS, hb⟩
      | false =>
        rw [signalBody_skip _ hb]
        exact ⟨hsub, hflag⟩
    )
    (by
      intro k sb _ h
      exact h
    )
    s.conns.length 0 (s, false)
    ⟨List.Sublist.refl _, by intro h; cases h⟩
  have hP2 := jsForEachGo_invariant (fun sb : RState × Bool => sb.1.conns)
    (signalBody (Msg.signal i d u) t)
    (fun k sb =>
      sb.2 = true ∨
      (sb.1.conns = s.conns ∧
        ∀ j, j < k → ∀ c, s.conns.get? j = some c → (c.uuid == t) = false))
    (by
      intro k c sb hg h
      cases h with
      | inl hflag =>
        cases hb : (c.uuid == t) with
        | true =>
          rw [signalBody_match _ hb]
          exact Or.inl rfl
        | false =>
          rw [signalBody_skip _ hb]
          exact Or.inl hflag
      | inr hr =>
        obtain ⟨hconns, hall⟩ := hr
        have hg' : s.conns.get? k = some c := by
          rw [← hconns]
          exact hg
        cases hb : (c.uuid == t) with
        | true =>
          rw [signalBody_match _ hb]
          exact Or.inl rfl
        | false =>
          rw [signalBody_skip _ hb]
          refine Or.inr ⟨hconns, ?_⟩
          intro j hj c' hc'
          by_cases hjk : j < k
          · exact hall j hjk c' hc'
          · have hjeq : j = k := by omega
            subst hjeq
            have : c' = c := by
              rw [hg'] at hc'
              exact (Option.some.inj hc').symm
            subst this
            exact hb
      )
    (by
      intro k sb hg h
      cases h with
      | inl hflag => exact Or.inl hflag
      | inr hr =>
        obtain ⟨hconns, hall⟩ := hr
        have hg' : s.conns.get? k = none := by
          rw [← hconns]
          exact hg
        refine Or.inr ⟨hconns, ?_⟩
        intro j hj c' hc'
        by_cases hjk : j < k
        · exact hall j hjk c' hc'
        · have hjeq : j = k := by omega
          subst hjeq
          rw [hg'] at hc'
          cases hc'
      )
    s.conns.length 0 (s, false)
    (Or.inr ⟨rfl, by intro j hj c hc; omega⟩)
  have hshow : (signal t i d u s).2 =
      if (jsForEachGo (fun sb : RState × Bool => sb.1.conns)
        (signalBody (Msg.signal i d u) t) s.conns.length 0 (s, false)).2 then 200 else 404 := rfl
  rw [hshow]
  cases hres : (jsForEachGo (fun sb : RState × Bool => sb.1.conns)
      (signalBody (Msg.signal i d u) t) s.conns.length 0 (s, false)).2 with
  | true =>
    rw [hP1.2 hres]
  | false =>
    have hany : s.conns.any (fun c => c.uuid == t) = false := by
      cases hany : s.conns.any (fun c => c.uuid == t) with
      | false => rfl
      | true =>
        exfalso
        obtain ⟨c, hcmem, hb⟩ := List.any_eq_true.mp hany
        obtain ⟨j, hj⟩ := List.get?_of_mem hcmem
        have hjlen : j < s.conns.length := by
          by_contra hle
          rw [List.get?_eq_none.mpr (by omega)] at hj
          cases hj
        cases hP2 with
        | inl hflag =>
          rw [hres] at hflag
          cases hflag
        | inr hr =>
          obtain ⟨_, hall⟩ := hr
          have := hall j (by omega) c hj
          rw [hb] at this
          cases this
    rw [hany]

/-! ### Facts about the reload broadcast -/

/-- The log the reload broadcast produces, client by client. -/
def wsLogOf : List WsClient → List (Nat × String)
  | [] => []
  | c :: t =>
    (if c.readyState = WS_OPEN then [(c.cid, wsUpdateText), (c.cid, updateJson)] else []) ++
      wsLogOf t

theorem opc_foldl (clients : List WsClient) (init : List (Nat × String)) :
    clients.foldl
      (fun log c =>
        if c.readyState = WS_OPEN then
          log ++ [(c.cid, wsUpdateText), (c.cid, updateJson)]
        else log)
      init = init ++ wsLogOf clients := by
  induction clients generalizing init with
  | nil => simp [wsLogOf]
  | cons c t ih =>
    simp only [List.foldl_cons, wsLogOf]
    by_cases h : c.readyState = WS_OPEN
    · rw [if_pos h, if_pos h, ih]
      simp
    · rw [if_neg h, if_neg h, ih]
      simp

theorem opc_snd (clients : List WsClient) :
    (onProcessingComplete clients).2 = wsLogOf clients := by
  simpa [onProcessingComplete] using opc_foldl clients []

theorem wsMsgsTo_append (cid : Nat) (a b : List (Nat × String)) :
    wsMsgsTo cid (a ++ b) = wsMsgsTo cid a ++ wsMsgsTo cid b := by
  simp [wsMsgsTo, List.filter_append]

theorem wsLogOf_no_cid {t : List WsClient} {cid : Nat}
    (h : cid ∉ t.map (fun x => x.cid)) : wsMsgsTo cid (wsLogOf t) = [] := by
  induction t with
  | nil => rfl
  | cons x t ih =>
    have hx : x.cid ≠ cid := by
      intro he
      exact h (by simp [he])
    have ht : cid ∉ t.map (fun x => x.cid) := by
      intro hm
      exact h (by simp [List.mem_cons]; right; simpa using hm)
    rw [wsLogOf, wsMsgsTo_append, ih ht]
    by_cases hr : x.readyState = WS_OPEN
    · rw [if_pos hr]
      simp [wsMsgsTo, hx]
    · rw [if_neg hr]
      simp [wsMsgsTo]

theorem wsMsgsTo_logOf (clients : List WsClient) (c : WsClient)
    (hc : c ∈ clients) (hnodup : (clients.map (fun x => x.cid)).Nodup) :
    wsMsgsTo c.cid (wsLogOf clients) =
      if c.readyState = WS_OPEN then [wsUpdateText, updateJson] else [] := by
  induction clients with
  | nil => cases hc
  | cons x t ih =>
    have hpair : (∀ y ∈ t, ¬ y.cid = x.cid) ∧ (t.map (fun y => y.cid)).Nodup := by
      simpa using hnodup
    have hnd : (t.map (fun y => y.cid)).Nodup := hpair.2
    have hhead : x.cid ∉ t.map (fun y => y.cid) := by
      intro hm
      obtain ⟨y, hy, he⟩ := List.mem_map.mp hm
      exact hpair.1 y hy he
    rcases List.mem_cons.mp hc with hcx | hct
    · subst hcx
      rw [wsLogOf, wsMsgsTo_append, wsLogOf_no_cid hhead]
      by_cases hr : c.readyState = WS_OPEN
      · rw [if_pos hr, if_pos hr]
        simp [wsMsgsTo]
      · rw [if_neg hr, if_neg hr]
        simp [wsMsgsTo]
    · have hx : x.cid ≠ c.cid := by
        intro he
        exact hpair.1 c hct he.symm
      rw [wsLogOf, wsMsgsTo_append, ih hct hnd]
      by_cases hr : x.readyState = WS_OPEN
      · rw [if_pos hr]
        simp [wsMsgsTo, hx]
      · rw [if_neg hr]
        simp [wsMsgsTo]

theorem wsLogOf_mem {t : List WsClient} {e : Nat × String} (he : e ∈ wsLogOf t) :
    ∃ x ∈ t, x.cid = e.1 ∧ x.readyState = WS_OPEN := by
  induction t with
  | nil => cases he
  | cons x t ih =>
    rw [wsLogOf] at he
    rcases List.mem_append.mp he with h1 | h2
    · by_cases hr : x.readyState = WS_OPEN
      · rw [if_pos hr] at h1
        have hcid : e.1 = x.cid := by
          rcases List.mem_cons.mp h1 with h | h
          · rw [h]
          · rcases List.mem_cons.mp h with h' | h'
            · rw [h']
            · cases h'
        exact ⟨x, List.mem_cons_self _ _, hcid.symm, hr⟩
      · rw [if_neg hr] at h1
        cases h1
    · obtain ⟨y, hy, h1, h2⟩ := ih h2
      exact ⟨y, List.mem_cons_of_mem _ hy, h1, h2⟩

/-! ### Remaining small helpers -/

theorem msgsTo_append (cid : Nat) (a b : List (Nat × Msg)) :
    msgsTo cid (a ++ b) = msgsTo cid a ++ msgsTo cid b := by
  simp [msgsTo, List.filter_append]

theorem msgsTo_nil_of_fresh {cid : Nat} {L : List (Nat × Msg)}
    (h : L.all (fun e => e.1 != cid) = true) : msgsTo cid L = [] := by
  have hall : ∀ e ∈ L, ¬((fun e : Nat × Msg => e.1 == cid) e = true) := by
    intro e he hbe
    have h1 := List.all_eq_true.mp h e he
    simp only [bne_iff_ne, ne_eq] at h1
    simp only [beq_iff_eq] at hbe
    exact h1 hbe
  rw [msgsTo, List.filter_eq_nil_iff.mpr hall]
  rfl

/-! ### States used by the witnesses and counterexamples -/

/-- An all-live rendezvous state with duplicate registrations under "X". -/
def wA : RState := ⟨[⟨0, "X", true⟩, ⟨1, "X", true⟩, ⟨2, "Y", true⟩], [], [0, 1, 2]⟩

/-- A dead connection listening under "X" ahead of a live one under "X". -/
def cxSignalState : RState := ⟨[⟨0, "X", false⟩, ⟨1, "X", true⟩], [], [0, 1]⟩

/-- A dead connection under "B" ahead of a live one under "C". -/
def cxAnnounceState : RState := ⟨[⟨0, "B", false⟩, ⟨1, "C", true⟩], [], [0, 1]⟩

/-- A state whose log already carries traffic for another connection. -/
def wFresh : RState := ⟨[], [(3, Msg.ping)], []⟩

/-- A single live connection with its keep-alive interval scheduled. -/
def wPing : RState := ⟨[⟨5, "V", true⟩], [], [5]⟩

/-- A dead connection and a live bystander, both with intervals scheduled. -/
def wEvict : RState := ⟨[⟨9, "X", false⟩, ⟨3, "Y", true⟩], [], [9, 3]⟩

/-- A single-connection state; used against a connection not in it. -/
def wAbsent : RState := ⟨[⟨0, "A", true⟩], [], [0]⟩

/-- One open and one closed reload client. -/
def wClients : List WsClient := [⟨0, 1⟩, ⟨1, 3⟩]

/-- A reload client whose transport is closed (readyState 3). -/
def cxClosedClient : WsClient := ⟨7, 3⟩

/-! ### Claim theorems -/

/-- Claim C1, counterexample.  The connection with identity 1 is live and
currently listening under the target uuid "X", yet the signal request
delivers nothing to it (the failed send to the dead connection at index 0
splices the array during the forEach, so index 1 is skipped), while the
request still returns 200.  This refutes the claim that the signal message
is delivered to every connection currently listening under the target
uuid. -/
theorem signal_skips_live_listener_after_evict :
    (⟨1, "X", true⟩ : Conn) ∈ cxSignalState.conns
    ∧ (⟨1, "X", true⟩ : Conn).uuid = "X"
    ∧ (⟨1, "X", true⟩ : Conn).live = true
    ∧ msgsTo 1 (signal "X" "i" "d" "u" cxSignalState).1.sent = []
    ∧ (signal "X" "i" "d" "u" cxSignalState).2 = 200 := by
  decide

/-- Claim C1, amended.  When no send fails during the broadcast (all
connections live), every connection listening under the target uuid —
including all duplicates — receives the signal packet exactly once, in
registration order, and no other connection receives anything; and,
unconditionally, the request returns 200 exactly when at least one
connection with the target uuid is registered, and 404 otherwise. -/
theorem signal_delivery_and_status (t i d u : String) (s : RState) :
    (s.conns.all (fun c => c.live) = true →
      (signal t i d u s).1.sent =
        s.sent ++
          (s.conns.filter (fun c => c.uuid == t)).map (fun c => (c.cid, Msg.signal i d u)) ∧
      (signal t i d u s).1.conns = s.conns)
    ∧ (signal t i d u s).2 = (if s.conns.any (fun c => c.uuid == t) then 200 else 404) :=
  ⟨fun h => signal_all_live t i d u s h, signal_status t i d u s⟩

/-- Witness for the amended claim C1 at a concrete all-live state with two
connections registered under "X". -/
theorem signal_delivery_and_status_witness :
    (wA.conns.all (fun c => c.live) = true)
    ∧ ((signal "X" "i" "d" "u" wA).1.sent =
        wA.sent ++
          (wA.conns.filter (fun c => c.uuid == "X")).map
            (fun c => (c.cid, Msg.signal "i" "d" "u")) ∧
      (signal "X" "i" "d" "u" wA).1.conns = wA.conns)
    ∧ (signal "X" "i" "d" "u" wA).2 =
        (if wA.conns.any (fun c => c.uuid == "X") then 200 else 404) :=
  ⟨by decide,
   (signal_delivery_and_status "X" "i" "d" "u" wA).1 (by decide),
   (signal_delivery_and_status "X" "i" "d" "u" wA).2⟩

/-- Claim C2, counterexample.  The connection with identity 1 is live,
currently listening, and registered under "C" (different from the
announcer's "A"), yet the announce request delivers nothing to it: the
failed send to the dead connection at index 0 splices the array during the
forEach and index 1 is skipped.  The request still returns 200. -/
theorem announce_skips_live_listener_after_evict :
    (⟨1, "C", true⟩ : Conn) ∈ cxAnnounceState.conns
    ∧ (⟨1, "C", true⟩ : Conn).uuid ≠ "A"
    ∧ (⟨1, "C", true⟩ : Conn).live = true
    ∧ msgsTo 1 (announce "A" cxAnnounceState).1.sent = []
    ∧ (announce "A" cxAnnounceState).2 = 200 := by
  decide

/-- Claim C2, amended.  When no send fails during the broadcast (all
connections live), the announce packet carrying the announcer's uuid is
delivered exactly once to every connection whose uuid differs from it, in
registration order; unconditionally, the request returns 200, and every
entry the broadcast appends to the log is an announce packet addressed to
some registered connection whose uuid differs from the announcer's — so a
connection registered under the announcer's own uuid never receives it. -/
theorem announce_delivery_and_status (u : String) (s : RState) (e : Nat × Msg) :
    (s.conns.all (fun c => c.live) = true →
      (announce u s).1.sent =
        s.sent ++
          (s.conns.filter (fun c => c.uuid != u)).map (fun c => (c.cid, Msg.announce u)) ∧
      (announce u s).1.conns = s.conns)
    ∧ (announce u s).2 = 200
    ∧ (e ∈ (announce u s).1.sent →
        e ∈ s.sent ∨
          (e.2 = Msg.announce u ∧
            s.conns.any (fun c => c.cid == e.1 && c.uuid != u) = true)) :=
  ⟨fun h => announce_all_live u s h, rfl, fun he => announce_entries u s e he⟩

/-- Witness for the amended claim C2 at a concrete all-live state. -/
theorem announce_delivery_and_status_witness :
    (wA.conns.all (fun c => c.live) = true)
    ∧ ((announce "A" wA).1.sent =
        wA.sent ++
          (wA.conns.filter (fun c => c.uuid != "A")).map (fun c => (c.cid, Msg.announce "A")) ∧
      (announce "A" wA).1.conns = wA.conns)
    ∧ (announce "A" wA).2 = 200
    ∧ (((0 : Nat), Msg.announce "A") ∈ wA.sent ∨
        (Msg.announce "A" = Msg.announce "A" ∧
          wA.conns.any (fun c => c.cid == (0 : Nat) && c.uuid != "A") = true)) :=
  ⟨by decide,
   (announce_delivery_and_status "A" wA ((0 : Nat), Msg.announce "A")).1 (by decide),
   (announce_delivery_and_status "A" wA ((0 : Nat), Msg.announce "A")).2.1,
   (announce_delivery_and_status "A" wA ((0 : Nat), Msg.announce "A")).2.2 (by decide)⟩

/-- Claim C3.  A listen connection is sent the accept packet immediately on
open, before any other packet on that connection (its slice of the log
right after the listen operation is exactly the accept packet); its
keep-alive interval is scheduled, the interval period is the fixed 5000 ms
of the source, and each firing of the interval on a healthy connection
appends exactly one ping packet while leaving the connection set and the
scheduled intervals unchanged (so pings continue for the connection's
lifetime). -/
theorem listen_accept_first_and_ping_period (s s' : RState) (uuid : String) (cid : Nat)
    (c : Conn)
    (hfresh : s.sent.all (fun e => e.1 != cid) = true)
    (hint : c.cid ∈ s'.intervalOn) (hclive : c.live = true) :
    pingPeriodMs = 5000
    ∧ msgsTo cid (listen uuid cid true s).sent = [Msg.accept]
    ∧ cid ∈ (listen uuid cid true s).intervalOn
    ∧ (pingTick c s').sent = s'.sent ++ [(c.cid, Msg.ping)]
    ∧ (pingTick c s').intervalOn = s'.intervalOn
    ∧ (pingTick c s').conns = s'.conns := by
  have hlist : listen uuid cid true s =
      { conns := s.conns ++ [⟨cid, uuid, true⟩],
        sent := s.sent ++ [(cid, Msg.accept)],
        intervalOn := s.intervalOn ++ [cid] } := rfl
  have hping : pingTick c s' = { s' with sent := s'.sent ++ [(c.cid, Msg.ping)] } := by
    rw [pingTick, if_pos hint, sseSend_live hclive]
  refine ⟨rfl, ?_, ?_, by rw [hping], by rw [hping], by rw [hping]⟩
  · rw [hlist]
    show msgsTo cid (s.sent ++ [(cid, Msg.accept)]) = [Msg.accept]
    rw [msgsTo_append, msgsTo_nil_of_fresh hfresh]
    simp [msgsTo]
  · rw [hlist]
    show cid ∈ s.intervalOn ++ [cid]
    simp

/-- Witness for claim C3 at concrete states: a fresh listen on identity 0
over a log that already carries traffic for identity 3, and a ping firing
on a healthy connection with identity 5. -/
theorem listen_accept_first_and_ping_period_witness :
    (wFresh.sent.all (fun e => e.1 != 0) = true)
    ∧ ((5 : Nat) ∈ wPing.intervalOn)
    ∧ ((⟨5, "V", true⟩ : Conn).live = true)
    ∧ (pingPeriodMs = 5000
       ∧ msgsTo 0 (listen "U" 0 true wFresh).sent = [Msg.accept]
       ∧ (0 : Nat) ∈ (listen "U" 0 true wFresh).intervalOn
       ∧ (pingTick ⟨5, "V", true⟩ wPing).sent = wPing.sent ++ [((5 : Nat), Msg.ping)]
       ∧ (pingTick ⟨5, "V", true⟩ wPing).intervalOn = wPing.intervalOn
       ∧ (pingTick ⟨5, "V", true⟩ wPing).conns = wPing.conns) :=
  ⟨by decide, by decide, rfl,
   listen_accept_first_and_ping_period wFresh wPing "U" 0 ⟨5, "V", true⟩
     (by decide) (by decide) rfl⟩

/-- Claim C4.  A send failure on a registered connection removes exactly
that connection from the connection set and cancels its keep-alive
interval; nothing is written to the log (the failure is not surfaced to any
other client), every other connection keeps its membership, and the same
holds when the failing send is the keep-alive ping itself. -/
theorem sseSend_failure_evicts_and_cancels (s : RState) (c d : Conn) (m : Msg)
    (hdead : c.live = false) (hmem : c ∈ s.conns) (hnodup : s.intervalOn.Nodup)
    (hint : c.cid ∈ s.intervalOn) (hd : d ∈ s.conns) (hdc : d ≠ c) :
    (sseSend c m s).conns = s.conns.erase c
    ∧ (sseSend c m s).sent = s.sent
    ∧ c.cid ∉ (sseSend c m s).intervalOn
    ∧ d ∈ (sseSend c m s).conns
    ∧ (pingTick c s).conns = s.conns.erase c
    ∧ (pingTick c s).sent = s.sent := by
  have hs := sseSend_dead hdead m s
  have hconns : (sseSend c m s).conns = s.conns.erase c := by
    rw [hs]
    exact evictConn_eq_erase hmem
  have hio : (sseSend c m s).intervalOn = s.intervalOn.erase c.cid := by
    rw [hs]
  refine ⟨hconns, by rw [hs], ?_, ?_, ?_, ?_⟩
  · rw [hio]
    intro hmm
    exact ((List.Nodup.mem_erase_iff hnodup).mp hmm).1 rfl
  · rw [hconns]
    exact (List.mem_erase_of_ne hdc).mpr hd
  · rw [pingTick, if_pos hint, sseSend_dead hdead]
    exact evictConn_eq_erase hmem
  · rw [pingTick, if_pos hint, sseSend_dead hdead]

/-- Witness for claim C4: the dead connection with identity 9 fails its
send and is evicted while the live connection with identity 3 stays. -/
theorem sseSend_failure_evicts_and_cancels_witness :
    ((⟨9, "X", false⟩ : Conn).live = false)
    ∧ ((⟨9, "X", false⟩ : Conn) ∈ wEvict.conns)
    ∧ wEvict.intervalOn.Nodup
    ∧ ((9 : Nat) ∈ wEvict.intervalOn)
    ∧ ((⟨3, "Y", true⟩ : Conn) ∈ wEvict.conns)
    ∧ ((⟨3, "Y", true⟩ : Conn) ≠ (⟨9, "X", false⟩ : Conn))
    ∧ ((sseSend ⟨9, "X", false⟩ Msg.ping wEvict).conns = wEvict.conns.erase ⟨9, "X", false⟩
       ∧ (sseSend ⟨9, "X", false⟩ Msg.ping wEvict).sent = wEvict.sent
       ∧ (9 : Nat) ∉ (sseSend ⟨9, "X", false⟩ Msg.ping wEvict).intervalOn
       ∧ (⟨3, "Y", true⟩ : Conn) ∈ (sseSend ⟨9, "X", false⟩ Msg.ping wEvict).conns
       ∧ (pingTick ⟨9, "X", false⟩ wEvict).conns = wEvict.conns.erase ⟨9, "X", false⟩
       ∧ (pingTick ⟨9, "X", false⟩ wEvict).sent = wEvict.sent) :=
  ⟨rfl, by decide, by decide, by decide, by decide, by decide,
   sseSend_failure_evicts_and_cancels wEvict ⟨9, "X", false⟩ ⟨3, "Y", true⟩ Msg.ping
     rfl (by decide) (by decide) (by decide) (by decide) (by decide)⟩

/-- Claim C5.  On a settle event, every registered reload connection whose
transport reports OPEN is sent at least one message and every message it is
sent carries the update discriminator (it is the string update or the JSON
object with type field update); a registered connection whose transport is
not OPEN is sent nothing. -/
theorem settle_broadcast_to_open_only (clients : List WsClient) (c : WsClient)
    (hc : c ∈ clients) (hnodup : (clients.map (fun x => x.cid)).Nodup) :
    (c.readyState = WS_OPEN →
      wsMsgsTo c.cid (onProcessingComplete clients).2 ≠ [] ∧
      (wsMsgsTo c.cid (onProcessingComplete clients).2).all
        (fun m => m == wsUpdateText || m == updateJson) = true)
    ∧ (c.readyState ≠ WS_OPEN → wsMsgsTo c.cid (onProcessingComplete clients).2 = []) := by
  have hchar := wsMsgsTo_logOf clients c hc hnodup
  rw [opc_snd]
  constructor
  · intro hopen
    rw [hchar, if_pos hopen]
    exact ⟨by simp, by decide⟩
  · intro hclosed
    rw [hchar, if_neg hclosed]

/-- Witness for claim C5 with one open and one closed client. -/
theorem settle_broadcast_to_open_only_witness :
    ((⟨0, 1⟩ : WsClient) ∈ wClients)
    ∧ (wClients.map (fun x => x.cid)).Nodup
    ∧ (wsMsgsTo 0 (onProcessingComplete wClients).2 ≠ [] ∧
       (wsMsgsTo 0 (onProcessingComplete wClients).2).all
         (fun m => m == wsUpdateText || m == updateJson) = true) :=
  ⟨by decide, by decide,
   (settle_broadcast_to_open_only wClients ⟨0, 1⟩ (by decide) (by decide)).1 rfl⟩

/-- Claim C6, counterexample.  A registered reload client whose transport
is closed is NOT dropped from the registered set by the broadcast: the
settle callback only skips it (it sends nothing) and returns the client set
unchanged, refuting the claim that closed or erroring send targets are
removed as a side effect of the broadcast attempt. -/
theorem settle_broadcast_keeps_closed_client :
    (onProcessingComplete [cxClosedClient]).1 = [cxClosedClient]
    ∧ cxClosedClient ∈ (onProcessingComplete [cxClosedClient]).1
    ∧ cxClosedClient.readyState ≠ WS_OPEN
    ∧ (onProcessingComplete [cxClosedClient]).2 = [] := by
  decide

/-- Claim C6, amended.  The settle broadcast never modifies the registered
reload set — connections whose transport is not open are skipped but stay
registered (their removal is the transport library's own close handling,
outside this callback) — and every message the broadcast writes is
addressed to a registered client whose transport is open. -/
theorem settle_broadcast_no_eviction (clients : List WsClient) (e : Nat × String) :
    (onProcessingComplete clients).1 = clients
    ∧ (e ∈ (onProcessingComplete clients).2 →
        clients.any (fun c => c.cid == e.1 && c.readyState == WS_OPEN) = true) := by
  refine ⟨rfl, ?_⟩
  intro he
  rw [opc_snd] at he
  obtain ⟨x, hx, h1, h2⟩ := wsLogOf_mem he
  simp only [List.any_eq_true]
  exact ⟨x, hx, by simp [h1, h2]⟩

/-- Witness for the amended claim C6: the broadcast leaves the client set
unchanged and the first update message is addressed to the open client. -/
theorem settle_broadcast_no_eviction_witness :
    (onProcessingComplete wClients).1 = wClients
    ∧ wClients.any (fun c => c.cid == (0 : Nat) && c.readyState == WS_OPEN) = true :=
  ⟨(settle_broadcast_no_eviction wClients ((0 : Nat), wsUpdateText)).1,
   (settle_broadcast_no_eviction wClients ((0 : Nat), wsUpdateText)).2 (by decide)⟩

/-- Claim C7, counterexample.  In the startup trace the preview-ready
emission (index 1) occurs strictly before the listen call (index 2), so the
ready signal is emitted before the server is listening, refuting the claim
that it is emitted once the server is listening. -/
theorem ready_emitted_before_listen :
    startServerTrace 8080 none true =
      [StartEvent.scanComplete, StartEvent.emitReady 8080, StartEvent.listenStart 8080]
    ∧ (startServerTrace 8080 none true).get? 1 = some (StartEvent.emitReady 8080)
    ∧ (startServerTrace 8080 none true).get? 2 = some (StartEvent.listenStart 8080) := by
  decide

/-- Claim C7, amended.  The initial scan completes before the listen call
(so before any request is accepted); exactly one ready signal is emitted,
carrying the resolved port, immediately before the listen call rather than
after listening has started; and a failing initial scan aborts startup with
no listen call and no ready signal. -/
theorem startup_trace_shape (port : Nat) (finder : Option Nat) :
    startServerTrace port finder true =
      [StartEvent.scanComplete, StartEvent.emitReady (resolvePort port finder),
        StartEvent.listenStart (resolvePort port finder)]
    ∧ startServerTrace port finder false = [StartEvent.scanFailed]
    ∧ ((startServerTrace port finder true).filter
        (fun e => match e with | StartEvent.emitReady _ => true | _ => false)).length = 1
    ∧ (startServerTrace port finder false).all
        (fun e => match e with
          | StartEvent.listenStart _ => false
          | StartEvent.emitReady _ => false
          | _ => true) = true :=
  ⟨rfl, rfl, rfl, rfl⟩

/-- Claim C8, counterexample.  A caller-supplied port 0 is not used: the
truthiness test of the source treats it as absent and the auto-selected
port is taken instead, refuting the claim that a supplied port is always
used. -/
theorem resolvePort_zero_not_used :
    resolvePort 0 (some 3000) = 3000 ∧ (3000 : Nat) ≠ 0 := by
  decide

/-- Claim C8, amended.  A nonzero caller-supplied port is used unchanged; a
zero port (the JavaScript-falsy no-port value) takes the free-port pool's
selection, falling back to the fixed port 2044 when selection fails — so
port resolution is total and never fails. -/
theorem resolvePort_spec (port : Nat) (finder : Option Nat) :
    (port ≠ 0 → resolvePort port finder = port)
    ∧ resolvePort 0 finder = finder.getD 2044 := by
  constructor
  · intro h
    simp [resolvePort, h]
  · cases finder with
    | none => rfl
    | some p => rfl

/-- Witness for the amended claim C8 at ports 8080 and 0 with a failing
free-port selection. -/
theorem resolvePort_spec_witness :
    resolvePort 8080 none = 8080
    ∧ resolvePort 0 none = (none : Option Nat).getD 2044 :=
  ⟨(resolvePort_spec 8080 none).1 (by decide), (resolvePort_spec 0 none).2⟩

/-- Claim C9.  On a settle event, a reload connection whose transport is
open is sent exactly two messages, in order: the plain string update and
then the JSON serialization of the object with type field update. -/
theorem settle_sends_two_messages (clients : List WsClient) (c : WsClient)
    (hc : c ∈ clients) (hnodup : (clients.map (fun x => x.cid)).Nodup)
    (hopen : c.readyState = WS_OPEN) :
    wsMsgsTo c.cid (onProcessingComplete clients).2 = [wsUpdateText, updateJson]
    ∧ (wsMsgsTo c.cid (onProcessingComplete clients).2).length = 2 := by
  have hchar := wsMsgsTo_logOf clients c hc hnodup
  rw [opc_snd, hchar, if_pos hopen]
  exact ⟨rfl, rfl⟩

/-- Witness for claim C9 at the open client of the concrete client set. -/
theorem settle_sends_two_messages_witness :
    ((⟨0, 1⟩ : WsClient) ∈ wClients)
    ∧ (wClients.map (fun x => x.cid)).Nodup
    ∧ ((⟨0, 1⟩ : WsClient).readyState = WS_OPEN)
    ∧ (wsMsgsTo 0 (onProcessingComplete wClients).2 = [wsUpdateText, updateJson]
       ∧ (wsMsgsTo 0 (onProcessingComplete wClients).2).length = 2) :=
  ⟨by decide, by decide, rfl,
   settle_sends_two_messages wClients ⟨0, 1⟩ (by decide) (by decide) rfl⟩

/-- Claim C10.  Eviction on send failure is not idempotent: when the
failing connection is no longer in the connection set, indexOf reports -1
and splice(-1, 1) removes the most recently added (last) connection of the
nonempty set instead of being a no-op. -/
theorem evict_absent_removes_last (s : RState) (c : Conn) (m : Msg)
    (hdead : c.live = false) (habs : c ∉ s.conns) (hne : s.conns ≠ []) :
    (sseSend c m s).conns = s.conns.dropLast
    ∧ (sseSend c m s).conns.length + 1 = s.conns.length
    ∧ connIndexOf s.conns c = -1 := by
  have hs := sseSend_dead hdead m s
  have hconns : (sseSend c m s).conns = s.conns.dropLast := by
    rw [hs]
    exact evictConn_of_not_mem habs
  refine ⟨hconns, ?_, connIndexOf_of_not_mem habs⟩
  rw [hconns, List.length_dropLast]
  have hpos : 0 < s.conns.length := List.length_pos.mpr hne
  omega

/-- Witness for claim C10: a failing send on the already-absent connection
with identity 1 removes the set's only (hence last) connection. -/
theorem evict_absent_removes_last_witness :
    ((⟨1, "B", false⟩ : Conn).live = false)
    ∧ ((⟨1, "B", false⟩ : Conn) ∉ wAbsent.conns)
    ∧ (wAbsent.conns ≠ [])
    ∧ ((sseSend ⟨1, "B", false⟩ Msg.ping wAbsent).conns = wAbsent.conns.dropLast
       ∧ (sseSend ⟨1, "B", false⟩ Msg.ping wAbsent).conns.length + 1 = wAbsent.conns.length
       ∧ connIndexOf wAbsent.conns ⟨1, "B", false⟩ = -1) :=
  ⟨rfl, by decide, by decide,
   evict_absent_removes_last wAbsent ⟨1, "B", false⟩ Msg.ping rfl (by decide) (by decide)⟩
